import Mathlib

/-!
Verification of the PaddleNLP inference sample scripts:
`paddlenlp/ops/faster_transformer/sample/mbart_inference.py` (sequence decode)
and `tests/test_tipc/ernie_text_matching/predict.py` (batching, backend
configuration, classification decode).

External collaborators (tokenizer text conversion, numpy argmax) are
abstracted: text conversion is a function parameter, numpy argmax is modelled
by its documented first-occurrence-of-maximum semantics.
-/

/-! ## Sequence decode (`postprocess_response`, mbart_inference.py lines 40-51) -/

/-- The `eos_pos` computed by `postprocess_response`: the loop scans forward and
stops at the first index holding `eos_idx`; `eos_pos` is initialised to
`len(seq) - 1` (an `Int`, hence `-1` for the empty sequence) and keeps that
default when `eos_idx` never occurs. -/
def eos_pos (seq : List Int) (eos_idx : Int) : Int :=
  match seq.findIdx? (fun idx => idx == eos_idx) with
  | some i => (i : Int)
  | none => (seq.length : Int) - 1

/-- The id-level body of `postprocess_response`:
`[idx for idx in seq[:eos_pos + 1] if idx != bos_idx and idx != eos_idx]`. -/
def postprocessIds (seq : List Int) (bos_idx eos_idx : Int) : List Int :=
  (seq.take (eos_pos seq eos_idx + 1).toNat).filter
    (fun idx => idx != bos_idx && idx != eos_idx)

/-- `postprocess_response tokenizer seq bos_idx eos_idx` with the external
`tokenizer.convert_ids_to_string` abstracted as `convert`. -/
def postprocess_response (convert : List Int → String) (seq : List Int)
    (bos_idx eos_idx : Int) : String :=
  convert (postprocessIds seq bos_idx eos_idx)

/-- The id transformation as the spec words it: truncate at the first
occurrence of `eos_idx` inclusive (whole sequence when absent), then drop every
occurrence of `bos_idx` and `eos_idx` from that truncated part. -/
def decodeIdsSpec (seq : List Int) (bos_idx eos_idx : Int) : List Int :=
  (match seq.findIdx? (fun idx => idx == eos_idx) with
   | some i => seq.take (i + 1)
   | none => seq).filter (fun idx => idx != bos_idx && idx != eos_idx)

lemma postprocessIds_eq_spec (seq : List Int) (bos_idx eos_idx : Int) :
    postprocessIds seq bos_idx eos_idx = decodeIdsSpec seq bos_idx eos_idx := by
  unfold postprocessIds decodeIdsSpec eos_pos
  cases h : seq.findIdx? (fun idx => idx == eos_idx) with
  | some i =>
      have : ((i : Int) + 1).toNat = i + 1 := by omega
      simp [this]
  | none =>
      have : ((seq.length : Int) - 1 + 1).toNat = seq.length := by omega
      simp [this]

/-- C1: sequence decode truncates the input at the first occurrence of `eos_idx`
inclusive (keeping the entire sequence when it never occurs), drops every
occurrence of `bos_idx` and `eos_idx` from the truncated part, and passes
exactly the remaining ids to text conversion; on `[0, 5, 9, 2, 1, 1]` with
bos 0 and eos 2 the ids passed to conversion are exactly `[5, 9]`. -/
theorem postprocess_truncates_and_strips :
    (∀ (seq : List Int) (bos_idx eos_idx : Int),
      postprocessIds seq bos_idx eos_idx = decodeIdsSpec seq bos_idx eos_idx)
    ∧ postprocessIds [0, 5, 9, 2, 1, 1] 0 2 = [5, 9]
    ∧ ∀ convert : List Int → String,
        postprocess_response convert [0, 5, 9, 2, 1, 1] 0 2 = convert [5, 9] := by
  have hconc : postprocessIds [0, 5, 9, 2, 1, 1] 0 2 = [5, 9] := by decide
  refine ⟨postprocessIds_eq_spec, hconc, fun convert => ?_⟩
  unfold postprocess_response
  rw [hconc]

lemma postprocessIds_no_special (seq : List Int) (bos_idx eos_idx : Int) :
    ∀ x ∈ postprocessIds seq bos_idx eos_idx, x ≠ bos_idx ∧ x ≠ eos_idx := by
  intro x hx
  unfold postprocessIds at hx
  have := List.mem_filter.mp hx
  have hb := this.2
  constructor
  · intro hxe; rw [hxe] at hb; simp at hb
  · intro hxe; rw [hxe] at hb; simp at hb

lemma postprocessIds_of_no_special (l : List Int) (bos_idx eos_idx : Int)
    (h : ∀ x ∈ l, x ≠ bos_idx ∧ x ≠ eos_idx) :
    postprocessIds l bos_idx eos_idx = l := by
  unfold postprocessIds eos_pos
  have hfind : l.findIdx? (fun idx => idx == eos_idx) = none := by
    rw [List.findIdx?_eq_none_iff]
    intro x hx
    simpa using (h x hx).2
  rw [hfind]
  have hn : ((l.length : Int) - 1 + 1).toNat = l.length := by omega
  rw [hn, List.take_length, List.filter_eq_self]
  intro a ha
  have := h a ha
  simp [this.1, this.2]

/-- C6: the truncate-at-eos-and-strip transformation is idempotent, so
re-running sequence decode on an already-truncated, already-stripped id list
returns the same string. -/
theorem postprocess_idempotent :
    ∀ (seq : List Int) (bos_idx eos_idx : Int),
      postprocessIds (postprocessIds seq bos_idx eos_idx) bos_idx eos_idx =
        postprocessIds seq bos_idx eos_idx
      ∧ ∀ convert : List Int → String,
          postprocess_response convert (postprocessIds seq bos_idx eos_idx) bos_idx eos_idx =
            convert (postprocessIds seq bos_idx eos_idx) := by
  intro seq bos_idx eos_idx
  have key := postprocessIds_of_no_special (postprocessIds seq bos_idx eos_idx)
    bos_idx eos_idx (postprocessIds_no_special seq bos_idx eos_idx)
  refine ⟨key, fun convert => ?_⟩
  unfold postprocess_response
  rw [key]

/-- C9: sequence decode is total on the empty id list: `eos_pos` defaults to
`-1`, the kept part is empty, and the result is the text conversion of the
empty id list. -/
theorem postprocess_empty_total :
    ∀ (bos_idx eos_idx : Int) (convert : List Int → String),
      eos_pos [] eos_idx = -1
      ∧ postprocessIds [] bos_idx eos_idx = []
      ∧ postprocess_response convert [] bos_idx eos_idx = convert [] := by
  intro bos_idx eos_idx convert
  exact ⟨rfl, rfl, rfl⟩

/-! ## Classification decode (`Predictor.predict`, predict.py lines 170-177) -/

/-- Inner loop of numpy argmax: `best_idx`/`best_val` track the first occurrence
of the running maximum, `i` is the index of the head of the remaining list. -/
def argmaxGo (best_idx : Nat) (best_val : ℚ) (i : Nat) : List ℚ → Nat
  | [] => best_idx
  | x :: xs =>
    if best_val < x then argmaxGo i x (i + 1) xs
    else argmaxGo best_idx best_val (i + 1) xs

/-- `np.argmax` over one row of `probs`, modelled by its documented semantics:
the index of the first occurrence of the maximum value (numpy rejects an empty
row; here it returns 0). Scores are modelled as rationals: the decode step only
compares scores, never does arithmetic on them. -/
def np_argmax : List ℚ → Nat
  | [] => 0
  | x :: xs => argmaxGo 0 x 1 xs

/-- The spec's decode-time error: `Predictor.predict` raises Python `KeyError`
when `label_map` misses the argmax index. -/
inductive DecodeError where
  | UnknownLabelIndex
deriving DecidableEq, Repr

/-- `[label_map[i] for i in idx]` from `Predictor.predict`: left-to-right
lookup, failing at the first index missing from `label_map`. -/
def lookupLabels (lm : Nat → Option String) : List Nat → Except DecodeError (List String)
  | [] => .ok []
  | i :: is =>
    match lm i with
    | none => .error .UnknownLabelIndex
    | some lab =>
      match lookupLabels lm is with
      | .ok labs => .ok (lab :: labs)
      | .error e => .error e

/-- The decode step of `Predictor.predict`: per-row argmax over `probs`, then
label lookup (`idx = np.argmax(probs, axis=1)`; `labels = [label_map[i] for i in idx]`). -/
def predictLabels (probs : List (List ℚ)) (lm : Nat → Option String) :
    Except DecodeError (List String) :=
  lookupLabels lm (probs.map np_argmax)

/-- The driver's label map: `{0: 'dissimilar', 1: 'similar'}`. -/
def label_map (i : Nat) : Option String :=
  if i = 0 then some ("dissimilar") else if i = 1 then some ("similar") else none

lemma argmaxGo_correct (xs : List ℚ) : ∀ (best_idx i : Nat) (best_val : ℚ),
    (argmaxGo best_idx best_val i xs = best_idx
      ∧ ∀ k, k < xs.length → xs.getD k 0 ≤ best_val)
    ∨ (∃ k, k < xs.length
        ∧ argmaxGo best_idx best_val i xs = i + k
        ∧ best_val < xs.getD k 0
        ∧ (∀ j, j < xs.length → xs.getD j 0 ≤ xs.getD k 0)
        ∧ (∀ j, j < k → xs.getD j 0 < xs.getD k 0)) := by
  induction xs with
  | nil =>
      intro best_idx i best_val
      left
      exact ⟨rfl, fun k hk => absurd hk (by simp)⟩
  | cons x xs ih =>
      intro best_idx i best_val
      by_cases h : best_val < x
      · rcases ih i (i + 1) x with ⟨heq, hall⟩ | ⟨k, hk, heq, hlt, hmax, hfirst⟩
        · right
          refine ⟨0, by simp, ?_, by simpa using h, ?_, ?_⟩
          · simpa [argmaxGo, h] using heq
          · intro j hj
            cases j with
            | zero => simp
            | succ j =>
                simp only [List.getD_cons_succ, List.getD_cons_zero]
                exact hall j (by simpa using hj)
          · intro j hj; omega
        · right
          refine ⟨k + 1, by simpa using Nat.succ_lt_succ hk, ?_, ?_, ?_, ?_⟩
          · simp only [argmaxGo, if_pos h]
            omega
          · simp only [List.getD_cons_succ]
            exact h.trans hlt
          · intro j hj
            cases j with
            | zero =>
                simp only [List.getD_cons_succ, List.getD_cons_zero]
                exact le_of_lt hlt
            | succ j =>
                simp only [List.getD_cons_succ]
                exact hmax j (by simpa using hj)
          · intro j hj
            cases j with
            | zero =>
                simp only [List.getD_cons_succ, List.getD_cons_zero]
                exact hlt
            | succ j =>
                simp only [List.getD_cons_succ]
                exact hfirst j (by omega)
      · rcases ih best_idx (i + 1) best_val with ⟨heq, hall⟩ | ⟨k, hk, heq, hlt, hmax, hfirst⟩
        · left
          refine ⟨by simpa [argmaxGo, h] using heq, ?_⟩
          intro k hk
          cases k with
          | zero => simpa using le_of_not_lt h
          | succ k =>
              simp only [List.getD_cons_succ]
              exact hall k (by simpa using hk)
        · right
          refine ⟨k + 1, by simpa using Nat.succ_lt_succ hk, ?_, ?_, ?_, ?_⟩
          · simp only [argmaxGo, if_neg h]
            omega
          · simp only [List.getD_cons_succ]
            exact hlt
          · intro j hj
            cases j with
            | zero =>
                simp only [List.getD_cons_succ, List.getD_cons_zero]
                exact le_of_lt ((le_of_not_lt h).trans_lt hlt)
            | succ j =>
                simp only [List.getD_cons_succ]
                exact hmax j (by simpa using hj)
          · intro j hj
            cases j with
            | zero =>
                simp only [List.getD_cons_succ, List.getD_cons_zero]
                exact (le_of_not_lt h).trans_lt hlt
            | succ j =>
                simp only [List.getD_cons_succ]
                exact hfirst j (by omega)

lemma np_argmax_stable (row : List ℚ) (h : row ≠ []) :
    np_argmax row < row.length
    ∧ (∀ j, j < row.length → row.getD j 0 ≤ row.getD (np_argmax row) 0)
    ∧ (∀ j, j < np_argmax row → row.getD j 0 < row.getD (np_argmax row) 0) := by
  cases row with
  | nil => exact absurd rfl h
  | cons x xs =>
      have hnp : np_argmax (x :: xs) = argmaxGo 0 x 1 xs := rfl
      rcases argmaxGo_correct xs 0 1 x with ⟨heq, hall⟩ | ⟨k, hk, heq, hlt, hmax, hfirst⟩
      · rw [hnp, heq]
        refine ⟨by simp, ?_, ?_⟩
        · intro j hj
          cases j with
          | zero => simp
          | succ j =>
              simp only [List.getD_cons_succ, List.getD_cons_zero]
              exact hall j (by simpa using hj)
        · intro j hj; omega
      · rw [Nat.add_comm] at heq
        rw [hnp, heq]
        refine ⟨by simpa using Nat.succ_lt_succ hk, ?_, ?_⟩
        · intro j hj
          cases j with
          | zero =>
              simp only [List.getD_cons_succ, List.getD_cons_zero]
              exact le_of_lt hlt
          | succ j =>
              simp only [List.getD_cons_succ]
              exact hmax j (by simpa using hj)
        · intro j hj
          cases j with
          | zero =>
              simp only [List.getD_cons_succ, List.getD_cons_zero]
              exact hlt
          | succ j =>
              simp only [List.getD_cons_succ]
              exact hfirst j (by omega)

/-- C5: classification decode picks, per row, the index of the maximum score
with ties broken by the lowest index (stable argmax); on the row
`[0.2, 0.9, 0.9]` the chosen index is 1, and the result is that index mapped
through the label map. -/
theorem argmax_decode_stable :
    (∀ row : List ℚ, row ≠ [] →
      np_argmax row < row.length
      ∧ (∀ j, j < row.length → row.getD j 0 ≤ row.getD (np_argmax row) 0)
      ∧ (∀ j, j < np_argmax row → row.getD j 0 < row.getD (np_argmax row) 0))
    ∧ np_argmax [(0.2 : ℚ), 0.9, 0.9] = 1
    ∧ predictLabels [[(0.2 : ℚ), 0.9, 0.9]] label_map = .ok [("similar")] := by
  refine ⟨np_argmax_stable, by norm_num [np_argmax, argmaxGo], ?_⟩
  norm_num [predictLabels, lookupLabels, label_map, np_argmax, argmaxGo]

/-- Witness for C5 at the concrete row `[3, 7]`. -/
theorem argmax_decode_stable_witness :
    np_argmax [(3 : ℚ), 7] < 2
    ∧ (∀ j, j < 2 → [(3 : ℚ), 7].getD j 0 ≤ [(3 : ℚ), 7].getD (np_argmax [(3 : ℚ), 7]) 0)
    ∧ (∀ j, j < np_argmax [(3 : ℚ), 7] →
        [(3 : ℚ), 7].getD j 0 < [(3 : ℚ), 7].getD (np_argmax [(3 : ℚ), 7]) 0) :=
  argmax_decode_stable.1 [(3 : ℚ), 7] (by simp)

/-- C8: if some row's stable-argmax index has no entry in the label map,
classification decode fails with `UnknownLabelIndex`. -/
theorem decode_unknown_label (probs : List (List ℚ)) (lm : Nat → Option String)
    (h : ∃ row ∈ probs, lm (np_argmax row) = none) :
    predictLabels probs lm = .error .UnknownLabelIndex := by
  induction probs with
  | nil => rcases h with ⟨row, hmem, _⟩; simp at hmem
  | cons r rs ih =>
      rcases h with ⟨row, hmem, hnone⟩
      rcases List.mem_cons.mp hmem with hr | hr
      · subst hr
        simp [predictLabels, lookupLabels, hnone]
      · cases hlm : lm (np_argmax r) with
        | none => simp [predictLabels, lookupLabels, hlm]
        | some lab =>
            have htail : predictLabels rs lm = .error .UnknownLabelIndex :=
              ih ⟨row, hr, hnone⟩
            unfold predictLabels at htail ⊢
            simp only [List.map_cons, lookupLabels, hlm, htail]

/-- Witness for C8: a single row whose argmax index is missing from the map. -/
theorem decode_unknown_label_witness :
    predictLabels [[(1 : ℚ)]] (fun _ => none) = .error .UnknownLabelIndex :=
  decode_unknown_label [[(1 : ℚ)]] (fun _ => none) ⟨[(1 : ℚ)], by simp, rfl⟩

/-- C10: when every row's argmax index is in the label map, classification
decode returns exactly one label per row, in row order: the i-th label is the
label of the argmax of the i-th row. -/
theorem decode_length_order_preserving (probs : List (List ℚ)) (lm : Nat → Option String)
    (h : ∀ row ∈ probs, (lm (np_argmax row)).isSome = true) :
    ∃ labs : List String,
      predictLabels probs lm = .ok labs
      ∧ labs.length = probs.length
      ∧ ∀ i, i < probs.length →
          lm (np_argmax (probs.getD i [])) = some (labs.getD i ("")) := by
  induction probs with
  | nil => exact ⟨[], rfl, rfl, fun i hi => absurd hi (by simp)⟩
  | cons r rs ih =>
      obtain ⟨lab, hlab⟩ := Option.isSome_iff_exists.mp (h r (List.mem_cons_self r rs))
      obtain ⟨labs, hok, hlen, hget⟩ := ih (fun row hr => h row (List.mem_cons_of_mem r hr))
      refine ⟨lab :: labs, ?_, by simpa using hlen, ?_⟩
      · unfold predictLabels at hok ⊢
        simp only [List.map_cons, lookupLabels, hlab, hok]
      · intro i hi
        cases i with
        | zero => simpa using hlab
        | succ i =>
            simp only [List.getD_cons_succ]
            exact hget i (by simpa using hi)

/-- Witness for C10 at a concrete one-row score matrix. -/
theorem decode_length_order_preserving_witness :
    ∃ labs : List String,
      predictLabels [[(0.2 : ℚ), 0.9]] label_map = .ok labs
      ∧ labs.length = 1
      ∧ ∀ i, i < 1 →
          label_map (np_argmax ([[(0.2 : ℚ), 0.9]].getD i [])) = some (labs.getD i ("")) :=
  decode_length_order_preserving [[(0.2 : ℚ), 0.9]] label_map (by
    intro row hr
    simp only [List.mem_singleton] at hr
    subst hr
    norm_num [label_map, np_argmax, argmaxGo])

/-! ## Backend configuration (`Predictor.__init__`, predict.py lines 48-100) -/

/-- `paddle.inference.PrecisionType` values used by `precision_map`. -/
inductive PrecisionType where
  | Half
  | Float32
  | Int8
deriving DecidableEq, Repr

/-- The fields of `paddle.inference.Config` that `Predictor.__init__` touches,
at the values a freshly constructed config starts from. -/
structure InferenceConfig where
  useGpu : Bool := false
  gpuMemoryMb : Nat := 0
  tensorrtEnabled : Bool := false
  tensorrtMaxBatchSize : Nat := 0
  tensorrtMinSubgraphSize : Nat := 0
  tensorrtPrecision : Option PrecisionType := none
  mkldnnEnabled : Bool := false
  mkldnnCacheCapacity : Nat := 0
  cpuMathThreads : Nat := 0
  xpuEnabled : Bool := false
  useFeedFetchOps : Bool := true
deriving DecidableEq, Repr

/-- `precision_map` from the gpu branch:
`{"fp16": Half, "fp32": Float32, "int8": Int8}`; `none` models the Python
`KeyError` raised on any other key. -/
def precision_map (precision : String) : Option PrecisionType :=
  if precision = ("fp16") then some PrecisionType.Half
  else if precision = ("fp32") then some PrecisionType.Float32
  else if precision = ("int8") then some PrecisionType.Int8
  else none

/-- The error raised by `precision_map[precision]` on an unknown key. -/
inductive ConfigError where
  | KeyError
deriving DecidableEq, Repr

/-- The keyword arguments of `Predictor.__init__` that influence the resolved
configuration, at their declared defaults. -/
structure PredictorOptions where
  device : String := ("gpu")
  batch_size : Nat := 32
  use_tensorrt : Bool := false
  precision : String := ("fp32")
  cpu_threads : Nat := 10
  enable_mkldnn : Bool := false
deriving DecidableEq, Repr

/-- The configuration-deciding part of `Predictor.__init__`: on gpu, enable the
gpu pool, look the precision up in `precision_map` (Python `KeyError` on an
unknown key) and enable TensorRT only when `use_tensorrt` is set; on cpu,
optionally enable mkldnn with a hard-coded cache capacity of 10 and set the
thread count; on xpu, enable the xpu; any other device string leaves the
config untouched. `switch_use_feed_fetch_ops(False)` runs in every case. -/
def predictorInit (o : PredictorOptions) : Except ConfigError InferenceConfig :=
  let config : InferenceConfig := {}
  if o.device = ("gpu") then
    let config := { config with useGpu := true, gpuMemoryMb := 100 }
    match precision_map o.precision with
    | none => .error ConfigError.KeyError
    | some precision_mode =>
      let config :=
        if o.use_tensorrt then
          { config with
              tensorrtEnabled := true
              tensorrtMaxBatchSize := o.batch_size
              tensorrtMinSubgraphSize := 30
              tensorrtPrecision := some precision_mode }
        else config
      .ok { config with useFeedFetchOps := false }
  else if o.device = ("cpu") then
    let config := { config with useGpu := false }
    let config :=
      if o.enable_mkldnn then
        { config with mkldnnCacheCapacity := 10, mkldnnEnabled := true }
      else config
    let config := { config with cpuMathThreads := o.cpu_threads }
    .ok { config with useFeedFetchOps := false }
  else if o.device = ("xpu") then
    .ok { config with xpuEnabled := true, useFeedFetchOps := false }
  else
    .ok { config with useFeedFetchOps := false }

/-- C3 counterexample: with device cpu and use_tensorrt true, construction
succeeds (no `UnsupportedConfiguration` is ever raised); a configuration is
produced and the accelerator request is silently dropped. -/
theorem cpu_accelerator_not_rejected :
    predictorInit { device := ("cpu"), use_tensorrt := true } =
      .ok { cpuMathThreads := 10, useFeedFetchOps := false } := by
  rfl

/-- C3 amended: for every options record with device cpu and use_tensorrt true,
configuration resolution succeeds and silently ignores the accelerator flag:
the result is a CPU configuration with TensorRT disabled. -/
theorem cpu_accelerator_ignored (o : PredictorOptions)
    (hdev : o.device = ("cpu")) (_htrt : o.use_tensorrt = true) :
    ∃ config : InferenceConfig,
      predictorInit o = .ok config
      ∧ config.tensorrtEnabled = false
      ∧ config.useGpu = false
      ∧ config.cpuMathThreads = o.cpu_threads := by
  cases hm : o.enable_mkldnn
  · exact ⟨{ cpuMathThreads := o.cpu_threads, useFeedFetchOps := false },
      by simp [predictorInit, hdev, hm], rfl, rfl, rfl⟩
  · exact ⟨{ mkldnnEnabled := true, mkldnnCacheCapacity := 10,
             cpuMathThreads := o.cpu_threads, useFeedFetchOps := false },
      by simp [predictorInit, hdev, hm], rfl, rfl, rfl⟩

/-- Witness for amended C3 at the concrete options of the counterexample. -/
theorem cpu_accelerator_ignored_witness :
    ∃ config : InferenceConfig,
      predictorInit { device := ("cpu"), use_tensorrt := true } = .ok config
      ∧ config.tensorrtEnabled = false
      ∧ config.useGpu = false
      ∧ config.cpuMathThreads = 10 :=
  cpu_accelerator_ignored { device := ("cpu"), use_tensorrt := true } rfl rfl

/-- C4 counterexample: with device gpu, precision int8 and use_tensorrt false,
construction succeeds (no `UnsupportedConfiguration`): the looked-up precision
mode is never applied and the backend runs at its default precision. -/
theorem gpu_int8_without_trt_not_rejected :
    predictorInit { precision := ("int8") } =
      .ok { useGpu := true, gpuMemoryMb := 100, useFeedFetchOps := false } := by
  rfl

/-- C4 amended: for every options record with device gpu, precision int8 or
fp16, and use_tensorrt false, configuration resolution succeeds with TensorRT
disabled and no TensorRT precision recorded: the requested reduced precision
is looked up but silently dropped. -/
theorem gpu_reduced_precision_ignored (o : PredictorOptions)
    (hdev : o.device = ("gpu")) (htrt : o.use_tensorrt = false)
    (hp : o.precision = ("int8") ∨ o.precision = ("fp16")) :
    ∃ config : InferenceConfig,
      predictorInit o = .ok config
      ∧ config.tensorrtEnabled = false
      ∧ config.tensorrtPrecision = none := by
  refine ⟨{ useGpu := true, gpuMemoryMb := 100, useFeedFetchOps := false }, ?_, rfl, rfl⟩
  rcases hp with hp | hp <;> simp [predictorInit, precision_map, hdev, hp, htrt]

/-- Witness for amended C4 at the concrete options of the counterexample. -/
theorem gpu_reduced_precision_ignored_witness :
    ∃ config : InferenceConfig,
      predictorInit { precision := ("int8") } = .ok config
      ∧ config.tensorrtEnabled = false
      ∧ config.tensorrtPrecision = none :=
  gpu_reduced_precision_ignored { precision := ("int8") } rfl rfl (Or.inl rfl)

/-- C7: configuration resolution is a deterministic, pure function of the
options record: two calls with equal options produce equal results. -/
theorem predictorInit_deterministic (o1 o2 : PredictorOptions) (h : o1 = o2) :
    predictorInit o1 = predictorInit o2 := by
  rw [h]

/-- Witness for C7 at the default options record. -/
theorem predictorInit_deterministic_witness :
    predictorInit {} = predictorInit {} :=
  predictorInit_deterministic {} {} rfl

/-! ## Padding/Batching Assembler (spec section 4.1)

`batchify_fn` in predict.py lines 153-161 delegates the padding to the `Pad`
collate class of `paddlenlp.data`, repository code that is not among the
source files here; the assembler is therefore modelled from the spec. -/

/-- The side on which padding is added. -/
inductive PadSide where
  | Leading
  | Trailing
deriving DecidableEq, Repr

/-- The assembler's error on empty input. -/
inductive AssembleError where
  | InvalidInput
deriving DecidableEq, Repr

/-- The maximum length across the input sequences (`max_len`). -/
def maxLenOf (seqs : List (List Int)) : Nat :=
  (seqs.map List.length).foldl max 0

/-- Modelled from the spec: the `Pad`-based assembler behind `batchify_fn` is
implemented in `paddlenlp.data`, which is missing from the source files. Spec
section 4.1: `max_len` is the maximum input length; an empty input fails with
`InvalidInput`; each row is the original sequence plus `(max_len - len)` copies
of `pad_id` on the selected side, in input order. -/
def assemble (seqs : List (List Int)) (pad_id : Int) (side : PadSide) :
    Except AssembleError (List (List Int)) :=
  if seqs.isEmpty then .error AssembleError.InvalidInput
  else
    .ok (seqs.map fun s =>
      match side with
      | PadSide.Trailing => s ++ List.replicate (maxLenOf seqs - s.length) pad_id
      | PadSide.Leading => List.replicate (maxLenOf seqs - s.length) pad_id ++ s)

lemma init_le_foldl_max (l : List Nat) : ∀ a : Nat, a ≤ l.foldl max a := by
  induction l with
  | nil => intro a; exact le_refl a
  | cons b l ih => intro a; exact le_trans (le_max_left a b) (ih (max a b))

lemma foldl_max_le_of_mem (l : List Nat) : ∀ a x : Nat, x ∈ l → x ≤ l.foldl max a := by
  induction l with
  | nil => intro a x hx; exact absurd hx (by simp)
  | cons b l ih =>
      intro a x hx
      rcases List.mem_cons.mp hx with hx | hx
      · subst hx
        exact le_trans (le_max_right a x) (init_le_foldl_max l (max a x))
      · exact ih (max a b) x hx

lemma foldl_max_attained (l : List Nat) : ∀ a : Nat, l.foldl max a = a ∨ l.foldl max a ∈ l := by
  induction l with
  | nil => intro a; left; rfl
  | cons b l ih =>
      intro a
      rcases ih (max a b) with h | h
      · rcases Nat.le_total a b with hab | hab
        · right
          rw [List.foldl_cons, h, Nat.max_eq_right hab]
          exact List.mem_cons_self b l
        · left
          rw [List.foldl_cons, h, Nat.max_eq_left hab]
      · right
        rw [List.foldl_cons]
        exact List.mem_cons_of_mem b h

lemma maxLenOf_is_max (seqs : List (List Int)) (h : seqs ≠ []) :
    (∀ s ∈ seqs, s.length ≤ maxLenOf seqs) ∧ ∃ s ∈ seqs, s.length = maxLenOf seqs := by
  constructor
  · intro s hs
    exact foldl_max_le_of_mem (seqs.map List.length) 0 s.length
      (List.mem_map_of_mem List.length hs)
  · rcases foldl_max_attained (seqs.map List.length) 0 with h0 | hmem
    · cases seqs with
      | nil => exact absurd rfl h
      | cons s ss =>
          refine ⟨s, List.mem_cons_self s ss, ?_⟩
          have hle := foldl_max_le_of_mem ((s :: ss).map List.length) 0 s.length
            (List.mem_map_of_mem List.length (List.mem_cons_self s ss))
          unfold maxLenOf
          omega
    · rcases List.mem_map.mp hmem with ⟨s, hs, hlen⟩
      exact ⟨s, hs, hlen⟩

lemma getD_map_lists (f : List Int → List Int) (l : List (List Int)) :
    ∀ i, i < l.length → (l.map f).getD i [] = f (l.getD i []) := by
  induction l with
  | nil => intro i hi; exact absurd hi (by simp)
  | cons s ss ih =>
      intro i hi
      cases i with
      | zero => rfl
      | succ i =>
          simp only [List.map_cons, List.getD_cons_succ]
          exact ih i (by simpa using hi)

/-- C2 (assembler modelled from spec section 4.1): on every non-empty input,
`assemble` succeeds; `max_len` equals the true maximum input length; row i is
the i-th input sequence followed (Trailing) or preceded (Leading) by exactly
`max_len - len_i` copies of `pad_id`, in input order; and
`assemble [[1,2,3],[4,5]] 0 Trailing` yields rows `[1,2,3]` and `[4,5,0]`. -/
theorem assemble_pads_rows (seqs : List (List Int)) (pad_id : Int) (h : seqs ≠ []) :
    (∃ rows, assemble seqs pad_id PadSide.Trailing = .ok rows
      ∧ rows.length = seqs.length
      ∧ ∀ i, i < seqs.length →
          rows.getD i [] = seqs.getD i [] ++
            List.replicate (maxLenOf seqs - (seqs.getD i []).length) pad_id)
    ∧ (∃ rows, assemble seqs pad_id PadSide.Leading = .ok rows
      ∧ rows.length = seqs.length
      ∧ ∀ i, i < seqs.length →
          rows.getD i [] =
            List.replicate (maxLenOf seqs - (seqs.getD i []).length) pad_id ++ seqs.getD i [])
    ∧ (∀ s ∈ seqs, s.length ≤ maxLenOf seqs)
    ∧ (∃ s ∈ seqs, s.length = maxLenOf seqs)
    ∧ assemble [[1, 2, 3], [4, 5]] 0 PadSide.Trailing = .ok [[1, 2, 3], [4, 5, 0]] := by
  have hne : seqs.isEmpty = false := by
    cases seqs with
    | nil => exact absurd rfl h
    | cons s ss => rfl
  refine ⟨⟨seqs.map (fun s => s ++ List.replicate (maxLenOf seqs - s.length) pad_id),
      by simp [assemble, hne], by simp, ?_⟩,
    ⟨seqs.map (fun s => List.replicate (maxLenOf seqs - s.length) pad_id ++ s),
      by simp [assemble, hne], by simp, ?_⟩,
    (maxLenOf_is_max seqs h).1, (maxLenOf_is_max seqs h).2, by rfl⟩
  · intro i hi
    exact getD_map_lists (fun s => s ++ List.replicate (maxLenOf seqs - s.length) pad_id) seqs i hi
  · intro i hi
    exact getD_map_lists (fun s => List.replicate (maxLenOf seqs - s.length) pad_id ++ s) seqs i hi

/-- Witness for C2 at the concrete input `[[1,2,3],[4,5]]` with pad id 0. -/
theorem assemble_pads_rows_witness :
    (∃ rows, assemble [[1, 2, 3], [4, 5]] 0 PadSide.Trailing = .ok rows
      ∧ rows.length = 2
      ∧ ∀ i, i < 2 →
          rows.getD i [] = ([[1, 2, 3], [4, 5]] : List (List Int)).getD i [] ++
            List.replicate (maxLenOf [[1, 2, 3], [4, 5]] -
              (([[1, 2, 3], [4, 5]] : List (List Int)).getD i []).length) 0)
    ∧ (∃ rows, assemble [[1, 2, 3], [4, 5]] 0 PadSide.Leading = .ok rows
      ∧ rows.length = 2
      ∧ ∀ i, i < 2 →
          rows.getD i [] =
            List.replicate (maxLenOf [[1, 2, 3], [4, 5]] -
              (([[1, 2, 3], [4, 5]] : List (List Int)).getD i []).length) 0 ++
              ([[1, 2, 3], [4, 5]] : List (List Int)).getD i [])
    ∧ (∀ s ∈ ([[1, 2, 3], [4, 5]] : List (List Int)), s.length ≤ maxLenOf [[1, 2, 3], [4, 5]])
    ∧ (∃ s ∈ ([[1, 2, 3], [4, 5]] : List (List Int)), s.length = maxLenOf [[1, 2, 3], [4, 5]])
    ∧ assemble [[1, 2, 3], [4, 5]] 0 PadSide.Trailing = .ok [[1, 2, 3], [4, 5, 0]] :=
  assemble_pads_rows [[1, 2, 3], [4, 5]] 0 (by simp)
